import Mathlib

/-!
Verification of the mayabatch_executer toolkit: a shallow embedding of the
subprocess launcher (`app_exec.py`), the Maya batch bridge (`maya_exec.py`)
and the console logger (`IO.py`), with theorems settling the specified
properties of each.

Conventions of the embedding:
  * Python optional strings are `Option String`; Python string truthiness
    (`if s:`) is `pyTruthy` (false for `None` and for the empty string).
  * The file system is a map from path to file content (`FSys`); `os.path.isfile`,
    `os.remove`, file creation and writes act on it pointwise.
  * Exceptions the code can raise are an explicit `Except PyErr` result.
  * `shutil.which` and the names handed out by `tempfile.NamedTemporaryFile`
    are inputs of the environment (`Env`); `NamedTemporaryFile` hands out
    `env.tempName k` for a running counter `k` held in `World`.
  * Real time does not exist in the embedding; the watcher loop records how
    many times it slept and the constant duration of one sleep.
-/

/-- Python truthiness of an optional string: `None` and `''` are falsy. -/
def pyTruthy : Option String → Bool
  | none => false
  | some s => !(s == "")

/-- The exceptions the embedded code can raise. -/
inductive PyErr where
  | typeError
  | attributeError
  | fileNotFoundError
deriving DecidableEq, Repr

/-- A file system: each existing path maps to its content. -/
abbrev FSys := String → Option String

/-- Model of `os.path.isfile`. -/
def FSys.isfile (fs : FSys) (n : String) : Bool := (fs n).isSome

/-- Creating or overwriting a file (file creation and `file.write` + close). -/
def FSys.write (fs : FSys) (n c : String) : FSys :=
  fun m => if m = n then some c else fs m

/-- Model of `os.remove`. -/
def FSys.remove (fs : FSys) (n : String) : FSys :=
  fun m => if m = n then none else fs m

/-- The ambient environment: what `shutil.which` answers, and the stream of
fresh names `tempfile.NamedTemporaryFile` hands out. -/
structure Env where
  which : String → Option String
  tempName : Nat → String

/-- A launched subprocess handle (`subprocess.Popen`), with the ad hoc
attributes the code sets on it: `executable` (set by `AppExecuter.run`) and
`path_errors` (set by `MayabatchExecuter.run`; `none` models the attribute
not existing yet). -/
structure Proc where
  args : List String
  executable : Option String
  path_errors : Option String
deriving DecidableEq, Repr

/-- The state one run call works on: the file system, the
`NamedTemporaryFile` counter, the `WATCHER` slot as the running instance
sees it, and the class-level `PROCESSES` queue. Since `self.WATCHER = Thread(...)`
assigns an instance attribute (the class attribute stays `None`), `watcher`
is the running instance's slot: `none` = the lookup still falls through to
the class-level `None`, `some b` = this instance holds a thread whose
`is_alive()` is `b`. The interaction of several instances of one class is
the separate `wStep` event model. -/
structure World where
  fs : FSys
  tmp : Nat
  watcher : Option Bool
  queue : List Proc

/-- Instance state of an executer: `NAME_EXE` as seen on the instance after
`__init__`, and `self.path_exe`. -/
structure ExecSt where
  name_exe : Option String
  path_exe : Option String
deriving DecidableEq, Repr

/-- `AppExecuter.__init__(name_exe, path_exe)`: a truthy `name_exe` shadows
the class attribute, else the class attribute stays. For the base class the
class attribute `NAME_EXE` is `None`. -/
def AppExecuter.init (name_exe path_exe : Option String) : ExecSt :=
  { name_exe := if pyTruthy name_exe then name_exe else none
    path_exe := path_exe }

/-- `AppExecuter._get_exe_path`: plain `shutil.which`. -/
def AppExecuter.get_exe_path (env : Env) (name_exe : String) : Option String :=
  env.which name_exe

/-- The hard-coded fallback of `MayabatchExecuter._get_exe_path` (the Python
literal contains one backslash before `mayabatch.exe`). -/
def mayaFallbackPath : String := "C:/Program Files/Autodesk/Maya2023/bin\\mayabatch.exe"

/-- `MayabatchExecuter._get_exe_path`: the inherited lookup, and the
hard-coded path when that is falsy (`return path if path else ...`). -/
def MayabatchExecuter.get_exe_path (env : Env) (name_exe : String) : Option String :=
  let path := AppExecuter.get_exe_path env name_exe
  if pyTruthy path then path else some mayaFallbackPath

/-- `MayabatchExecuter.__init__` is inherited; the class attribute `NAME_EXE`
is `'mayabatch.exe'`. -/
def MayabatchExecuter.init (name_exe path_exe : Option String) : ExecSt :=
  { name_exe := if pyTruthy name_exe then name_exe else some "mayabatch.exe"
    path_exe := path_exe }

/-- Calling `self._get_exe_path(self.NAME_EXE)` with a dispatched
`_get_exe_path`: `shutil.which(None)` raises `TypeError`. -/
def getExeOf (get : String → Option String) : Option String → Except PyErr (Option String)
  | none => .error .typeError
  | some n => .ok (get n)

/-- Calling `os.path.isfile` on a Python optional string: `isfile(None)`
raises `TypeError` (`os.stat` refuses `None`; only `OSError`/`ValueError`
are swallowed by `genericpath.isfile`). -/
def isfilePy (fs : FSys) : Option String → Except PyErr Bool
  | none => .error .typeError
  | some s => .ok (fs.isfile s)

/-- `AppExecuter.validate`, parametric in the dispatched `_get_exe_path`:
a truthy `self.path_exe` validates at once; otherwise the path is resolved,
stored on the instance, and checked with `os.path.isfile`. -/
def validateWith (getExe : Option String → Except PyErr (Option String))
    (fs : FSys) (self : ExecSt) : Except PyErr (Bool × ExecSt) :=
  if pyTruthy self.path_exe then .ok (true, self)
  else
    match getExe self.name_exe with
    | .error e => .error e
    | .ok p =>
      let self2 : ExecSt := { self with path_exe := p }
      match isfilePy fs p with
      | .error e => .error e
      | .ok b => if b then .ok (true, self2) else .ok (false, self2)

/-- `validate` on a base `AppExecuter` instance. -/
def AppExecuter.validate (env : Env) (fs : FSys) (self : ExecSt) :
    Except PyErr (Bool × ExecSt) :=
  validateWith (getExeOf (AppExecuter.get_exe_path env)) fs self

/-- `validate` on a `MayabatchExecuter` instance (inherited body, overridden
`_get_exe_path`). -/
def MayabatchExecuter.validate (env : Env) (fs : FSys) (self : ExecSt) :
    Except PyErr (Bool × ExecSt) :=
  validateWith (getExeOf (MayabatchExecuter.get_exe_path env)) fs self

/-- The lazy watcher creation in `AppExecuter.run`, acting on the running
instance's `WATCHER` slot: a thread is started iff `self.WATCHER` reads
`None` (class fallback) or a thread that is not alive; a just-started
thread is alive. The assignment `self.WATCHER = Thread(...)` shadows the
class attribute per instance. Returns the new slot value and whether a
thread was spawned. -/
def spawnStep : Option Bool → Option Bool × Bool
  | some true => (some true, false)
  | _ => (some true, true)

/-- Model of `subprocess.Popen(args, executable=self.path_exe, stdout=DEVNULL)`:
starting the process raises `FileNotFoundError` when the executable path is
not an existing file. (A `None` executable is unreachable here: `validate`
returning `True` leaves `path_exe` a string; it is modelled as the same
failed lookup.) -/
def popen (fs : FSys) (args : List String) (path_exe : Option String) :
    Except PyErr Proc :=
  match path_exe with
  | none => .error .fileNotFoundError
  | some p =>
    if fs.isfile p then
      .ok { args := args, executable := some p, path_errors := none }
    else .error .fileNotFoundError

/-- The argument list `AppExecuter.run` builds: the positional arguments,
then `-key` and the value for each keyword argument in order. -/
def buildArgs (args : List String) (kwargs : List (String × String)) : List String :=
  kwargs.foldl (fun a kv => a ++ ["-" ++ kv.1] ++ [kv.2]) args

/-- `AppExecuter.run`, parametric in the dispatched `_get_exe_path`:
validate (returning `None` on failure), build the argument list, start the
subprocess with `executable=self.path_exe` (Popen raises `FileNotFoundError`
when that path is not an existing file — a truthy preset `path_exe` reaches
this unchecked), lazily start the watcher and put the process on the class
queue. The `process.executable = self.path_exe` annotation coincides with
the handle's `executable` field. -/
def AppExecuter.runWith (getExe : Option String → Except PyErr (Option String))
    (w : World) (self : ExecSt) (args : List String) (kwargs : List (String × String)) :
    Except PyErr (Option Proc × ExecSt × World) :=
  match validateWith getExe w.fs self with
  | .error e => .error e
  | .ok (valid, self2) =>
    if valid then
      match popen w.fs (buildArgs args kwargs) self2.path_exe with
      | .error e => .error e
      | .ok p =>
        .ok (some p, self2, { w with watcher := (spawnStep w.watcher).1,
                                     queue := w.queue ++ [p] })
    else .ok (none, self2, w)

/-- `run` on a base `AppExecuter` instance. -/
def AppExecuter.run (env : Env) (w : World) (self : ExecSt)
    (args : List String) (kwargs : List (String × String)) :
    Except PyErr (Option Proc × ExecSt × World) :=
  AppExecuter.runWith (getExeOf (AppExecuter.get_exe_path env)) w self args kwargs

/-- The early `return None` of `MayabatchExecuter.run` on a truthy maya file
argument that is not an existing file. -/
def mayaEarlyFileFail (fs : FSys) : Option String → Bool
  | none => false
  | some p => if p == "" then false else !(fs.isfile p)

/-- The command `MayabatchExecuter.run` wraps: built from `func` when given
(`from M import F; F()`), else the `command` argument. -/
def mayaUserCmd (command : Option String) (func : Option (String × String)) : String :=
  match func with
  | some f => "from " ++ f.1 ++ " import " ++ f.2 ++ "; " ++ f.2 ++ "()"
  | none => command.getD ""

/-- Python `'\n'.join(...)`. -/
def pyJoinNL : List String → String
  | [] => ""
  | [l] => l
  | l :: ls => l ++ "\n" ++ pyJoinNL ls

/-- The generated wrapper script: environment import, the user command under
`try`, an `except` writing `traceback.format_exc()` to the error-capture
file, a `finally` removing the script file itself. -/
def scriptWrap (cmd path_errors path_py : String) : String :=
  pyJoinNL [
    "import utd_menu",
    "try:",
    "    " ++ cmd,
    "except Exception as e:",
    "    import traceback",
    "    with open(r\x27" ++ path_errors ++ "\x27, \x27w\x27) as file:",
    "        file.write(traceback.format_exc())",
    "finally:",
    "    import os",
    "    os.remove(r\x27" ++ path_py ++ "\x27)"]

/-- Python `path_py.replace('\\', '\\\\')`: each backslash doubled. -/
def escapeBS (s : String) : String :=
  String.mk (s.data.flatMap fun c => if c = '\\' then ['\\', '\\'] else [c])

/-- The expression handed to mayabatch: it reads and executes the generated
script file. -/
def mayaPythonExpr (p : String) : String :=
  "python(\x22exec(open(r\x27" ++ p ++ "\x27, \x27r\x27).read())\x22)"

/-- The file system as `MayabatchExecuter.run` leaves it right before calling
`super().run`: the error-capture file created empty, the script file created
and then filled with the wrapper script. -/
def mayaStagedFs (fs : FSys) (path_errors path_py script : String) : FSys :=
  ((fs.write path_errors "").write path_py "").write path_py script

/-- The keyword arguments of the `super().run(...)` call: `file` when a maya
file was given (truthy), always `command`. -/
def mayaSuperKwargs (path_maya_file : Option String) (cmdExpr : String) :
    List (String × String) :=
  (match path_maya_file with
   | some p => if p == "" then [] else [("file", p)]
   | none => []) ++ [("command", cmdExpr)]

/-- `MayabatchExecuter.run`. Nothing-to-run and bad-maya-file failures return
`None` before any temporary file exists; then the two temporary files are
created and filled, `path_py` is rebound to its backslash-doubled form
(`path_py = path_py.replace('\\', '\\\\')` — the later failure cleanup sees
the rebound name), `super().run` is called (note the source unpacks `*kwargs`
into positional arguments, so the keys of `kwargs` travel as positionals; a
raise from Popen propagates with no cleanup); on a started process
`path_errors` is recorded on the handle (mutating the queued handle too), on
a failed launch the escaped script name and the error file are checked and
removed. -/
def MayabatchExecuter.run (env : Env) (w : World) (self : ExecSt)
    (path_maya_file command : Option String) (func : Option (String × String))
    (args : List String) (kwargs : List (String × String)) :
    Except PyErr (Option Proc × ExecSt × World) :=
  if mayaEarlyFileFail w.fs path_maya_file then .ok (none, self, w)
  else if !(pyTruthy command) && !func.isSome then .ok (none, self, w)
  else
    let path_errors := env.tempName w.tmp
    let path_py := env.tempName (w.tmp + 1)
    let script := scriptWrap (mayaUserCmd command func) path_errors path_py
    let fs1 := mayaStagedFs w.fs path_errors path_py script
    let w1 : World := { w with fs := fs1, tmp := w.tmp + 2 }
    let path_py := escapeBS path_py
    let cmdExpr := mayaPythonExpr path_py
    match AppExecuter.runWith (getExeOf (MayabatchExecuter.get_exe_path env)) w1 self
        (args ++ kwargs.map Prod.fst) (mayaSuperKwargs path_maya_file cmdExpr) with
    | .error e => .error e
    | .ok (none, self2, w2) =>
      let fs2 := if w2.fs.isfile path_py then w2.fs.remove path_py else w2.fs
      let fs3 := if fs2.isfile path_errors then fs2.remove path_errors else fs2
      .ok (none, self2, { w2 with fs := fs3 })
    | .ok (some p, self2, w2) =>
      let p2 : Proc := { p with path_errors := some path_errors }
      .ok (some p2, self2, { w2 with queue := w2.queue.dropLast ++ [p2] })

/-- Modelled from the spec: the effect of the generated wrapper script when
the vendor batch interpreter (not part of this repository) executes it, per
the spec's words that the script "wraps the user's command in a try/except
that writes a traceback to a second temporary file and deletes the script
file on completion". `userRaises` says whether the user command raised and
`tb` is its traceback text; the environment import is assumed to succeed. -/
def execGeneratedScript (fs : FSys) (userRaises : Bool) (tb : String)
    (path_errors path_py : String) : FSys :=
  (if userRaises then fs.write path_errors tb else fs).remove path_py

/-- `MayabatchExecuter.notify`: read the error-capture file recorded on the
process handle, delete it, and return the file system and the text read
(printed as failure or success). A handle without the attribute raises
`AttributeError`; a missing file raises `FileNotFoundError`. -/
def MayabatchExecuter.notify (fs : FSys) (p : Proc) : Except PyErr (FSys × String) :=
  match p.path_errors with
  | none => .error .attributeError
  | some pe =>
    match fs pe with
    | none => .error .fileNotFoundError
    | some content => .ok (fs.remove pe, content)

/-- A process as the watcher loop sees it: `exitAt` is the first loop
iteration (counted from 1, one `sleep` before each) at which `poll()`
observes the process as exited; polling at iteration `i` sees an exit code
iff `exitAt ≤ i`. -/
structure WProc where
  exitAt : Nat
deriving DecidableEq, Repr

/-- The literal duration of the `sleep(0.5)` at the top of each watcher
iteration, in seconds. -/
def watchSleepSeconds : ℚ := 0.5

/-- Whether `poll()` at iteration `i` observes the process as exited. -/
def pollExited (i : Nat) (p : WProc) : Bool := p.exitAt ≤ i

/-- `AppExecuter._watch_processes` on a queue with no concurrent producer:
each iteration sleeps once, drains the queue polling every process, notifies
(accumulating `(process, iteration)` into `acc`) each process observed to
have exited, stops when nothing polled is still running, and re-queues the
rest. `fuel` bounds the iterations (the real loop would spin for ever on a
process that never exits); `none` means the fuel ran out. Returns the
notifications, the iteration at which the loop stopped, and how many times
it slept. -/
def watchRun : Nat → List WProc → Nat → List (WProc × Nat) → Nat →
    Option (List (WProc × Nat) × Nat × Nat)
  | 0, _, _, _, _ => none
  | fuel + 1, queue, i, acc, slept =>
    let slept2 := slept + 1
    let exited := queue.filter fun p => pollExited i p
    let running := queue.filter fun p => !pollExited i p
    let acc2 := acc ++ exited.map fun p => (p, i)
    if running.isEmpty then some (acc2, i, slept2)
    else watchRun fuel running (i + 1) acc2 slept2

/-- The iteration at which the watcher loop started at iteration `i` on
`queue` terminates: the latest exit observation still owed, or `i` itself. -/
def termIter (queue : List WProc) (i : Nat) : Nat :=
  queue.foldr (fun p m => max p.exitAt m) i

/-- The events of the watcher-lifecycle model across the instances of one
executer class: a call to `run` on instance `i`, or the watcher thread held
by instance `i` finishing by itself. -/
inductive WEvent where
  | runCall (i : Nat)
  | watcherExit (i : Nat)
deriving DecidableEq, Repr

/-- The `WATCHER` slots of the instances of one executer class, plus a count
of the watcher threads currently alive. `self.WATCHER = Thread(...)` assigns
an instance attribute, so each instance has its own slot; before its first
assignment a slot reads the class-level `None` (`none`). -/
structure WatcherSt where
  slots : List (Option Bool)
  aliveCount : Nat
deriving DecidableEq, Repr

/-- `n` fresh instances: every `self.WATCHER` lookup falls through to the
class attribute `None`; no thread alive. -/
def wInit (n : Nat) : WatcherSt := { slots := List.replicate n none, aliveCount := 0 }

/-- One event: `runCall i` performs the lazy-spawn check of `AppExecuter.run`
(`not self.WATCHER or not self.WATCHER.is_alive()`) on instance `i` and, on
spawning, stores the new thread in instance `i`'s own slot — the class
attribute is never written; `watcherExit i` is the thread held by instance
`i` finishing. An event naming no existing instance changes nothing. -/
def wStep (st : WatcherSt) : WEvent → WatcherSt
  | .runCall i =>
    if i < st.slots.length then
      if st.slots.getD i none = none ∨ st.slots.getD i none = some false then
        { slots := st.slots.set i (some true), aliveCount := st.aliveCount + 1 }
      else st
    else st
  | .watcherExit i =>
    if st.slots.getD i none = some true then
      { slots := st.slots.set i (some false), aliveCount := st.aliveCount - 1 }
    else st

/-- The severity levels of the logger (`IO.py`), with their Python `value`s. -/
inductive Level where
  | TRACE
  | INFO
  | WARN
  | ERROR
deriving DecidableEq, Repr

/-- The `value` attribute of each `Level` member. -/
def levelValue : Level → String
  | .TRACE => "Trace"
  | .INFO => "Info"
  | .WARN => "Warning"
  | .ERROR => "Error"

/-- Python `str.upper()` on the ASCII level tags: uppercase each character. -/
def pyUpper (s : String) : String := String.mk (s.data.map Char.toUpper)

/-- The line header `f'{time_str}  [{level.value.upper()}]  '`. -/
def logHeaderStr (time_str : String) (level : Level) : String :=
  time_str ++ "  [" ++ pyUpper (levelValue level) ++ "]  "

/-- One step of the wrapping loop of `_log_to_console`: append the character
to the line under construction; flush it (starting over from the indent)
when the character is a newline or the line has reached `width`. -/
def logWrapStep (width : Nat) (ind : List Char)
    (st : List Char × List (List Char)) (c : Char) : List Char × List (List Char) :=
  let s := st.1 ++ [c]
  if c = '\n' ∨ width ≤ s.length then (ind, st.2 ++ [s]) else (s, st.2)

/-- The list `lines` of `_log_to_console` after the loop and the trailing
`lines.append(s)`. -/
def logWrapLines (message hdr ind : List Char) (width : Nat) : List (List Char) :=
  let st := message.foldl (logWrapStep width ind) (hdr, [])
  st.2 ++ [st.1]

/-- Python `'\n'.join` at character level. -/
def joinNlChars : List (List Char) → List Char
  | [] => []
  | [l] => l
  | l :: ls => l ++ '\n' :: joinNlChars ls

/-- The wrapped console text `_log_to_console` prints: header plus message,
wrapped at `width` with a hanging indent of header-many spaces. -/
def logConsoleChars (message : List Char) (time_str : String) (level : Level)
    (width : Nat) : List Char :=
  let hdr := (logHeaderStr time_str level).data
  joinNlChars (logWrapLines message hdr (List.replicate hdr.length ' ') width)

/-- One frame of the trace `_build_trace` collects. -/
structure Frame where
  file : String
  line : Nat
  function : String
  context : Option String
deriving DecidableEq, Repr

/-- Python `str.lstrip()`. -/
def strLstrip (s : String) : String :=
  String.mk (s.data.dropWhile fun c => c.isWhitespace)

/-- The lines printed for one stack frame: the `File ..., line ..., in ...`
line, and the stripped context line when the context is truthy. -/
def frameLines (f : Frame) : List String :=
  ["  File \x22" ++ f.file ++ "\x22, line " ++ toString f.line ++ ", in " ++ f.function]
  ++ (match f.context with
      | some c => if c == "" then [] else ["    " ++ strLstrip c]
      | none => [])

/-- The whole of `_log_to_console`: the wrapped message text, and the stack
frame lines, which are printed unless the level is `TRACE` or `INFO`. -/
def log_to_console (message : List Char) (level : Level) (trace : List Frame)
    (width : Nat) (time_str : String) : List Char × List String :=
  (logConsoleChars message time_str level width,
   if level = .TRACE ∨ level = .INFO then [] else trace.flatMap frameLines)

/-- The maximal newline-free pieces of a character list: the printed lines of
a text, as the console shows them. -/
def splitNl : List Char → List (List Char)
  | [] => [[]]
  | c :: cs =>
    match splitNl cs with
    | [] => [[]]
    | l :: ls => if c = '\n' then [] :: l :: ls else (c :: l) :: ls

/-! ### Helper lemmas -/

theorem pyTruthy_some_exists {o : Option String} (h : pyTruthy o = true) :
    ∃ s, o = some s ∧ (s == "") = false := by
  cases o with
  | none => simp [pyTruthy] at h
  | some s => exact ⟨s, rfl, by simpa [pyTruthy] using h⟩

theorem pyTruthy_isSome {o : Option String} (h : pyTruthy o = true) :
    o.isSome = true := by
  obtain ⟨s, rfl, -⟩ := pyTruthy_some_exists h
  rfl

theorem maya_get_truthy (env : Env) (n : String) :
    pyTruthy (MayabatchExecuter.get_exe_path env n) = true := by
  unfold MayabatchExecuter.get_exe_path
  cases h : pyTruthy (AppExecuter.get_exe_path env n) <;> simp [h]
  · decide

theorem mayaInit_name (ne pe : Option String) :
    ∃ nm, (MayabatchExecuter.init ne pe).name_exe = some nm := by
  unfold MayabatchExecuter.init
  cases h : pyTruthy ne
  · exact ⟨"mayabatch.exe", by simp [h]⟩
  · obtain ⟨s, rfl, -⟩ := pyTruthy_some_exists h
    exact ⟨s, by simp [h]⟩

theorem buildArgs_eq (args : List String) (kwargs : List (String × String)) :
    buildArgs args kwargs = args ++ kwargs.flatMap fun kv => ["-" ++ kv.1, kv.2] := by
  induction kwargs generalizing args with
  | nil => simp [buildArgs]
  | cons kv kws ih =>
    show buildArgs (args ++ ["-" ++ kv.1] ++ [kv.2]) kws = _
    rw [ih]
    simp

/-! ### C7 -/

/-- C7: `MayabatchExecuter._get_exe_path` returns the path found on the
search path when the name resolves there, and the hard-coded fallback
`C:/Program Files/Autodesk/Maya2023/bin\mayabatch.exe` otherwise; it never
returns `None`. -/
theorem c7_exe_path_fallback (env : Env) (n : String) :
    (MayabatchExecuter.get_exe_path env n).isSome = true ∧
    (pyTruthy (AppExecuter.get_exe_path env n) = true ∧
        MayabatchExecuter.get_exe_path env n = AppExecuter.get_exe_path env n
      ∨ pyTruthy (AppExecuter.get_exe_path env n) = false ∧
        MayabatchExecuter.get_exe_path env n = some mayaFallbackPath) := by
  refine ⟨pyTruthy_isSome (maya_get_truthy env n), ?_⟩
  unfold MayabatchExecuter.get_exe_path
  cases h : pyTruthy (AppExecuter.get_exe_path env n)
  · exact Or.inr ⟨rfl, by simp [h]⟩
  · exact Or.inl ⟨rfl, by simp [h]⟩

/-! ### C9 -/

/-- C9: the logger prints the file/line/function stack frames after the
message exactly when the level is `WARN` or `ERROR`; for `TRACE` and `INFO`
no frames are printed. -/
theorem c9_stack_frames (message : List Char) (level : Level) (trace : List Frame)
    (width : Nat) (time_str : String) :
    (log_to_console message level trace width time_str).2 =
      if level = Level.WARN ∨ level = Level.ERROR then trace.flatMap frameLines
      else [] := by
  cases level <;> simp [log_to_console]

/-! ### C5: instance-attribute shadowing refutes the per-class invariant -/

/-- The watcher-count invariant: the alive count is the number of instance
slots holding a live thread. -/
def wInv (st : WatcherSt) : Prop :=
  st.aliveCount = st.slots.countP fun s => s == some true

theorem countP_set_spawn : ∀ (l : List (Option Bool)) (i : Nat), i < l.length →
    l.getD i none ≠ some true →
    (l.set i (some true)).countP (fun s => s == some true) =
      l.countP (fun s => s == some true) + 1 := by
  intro l
  induction l with
  | nil =>
    intro i hi
    exact absurd hi (by simp)
  | cons x xs ih =>
    intro i hi hne
    cases i with
    | zero =>
      rw [List.getD_cons_zero] at hne
      have hx : (x == some true) = false := beq_eq_false_iff_ne.mpr hne
      rw [List.set_cons_zero, List.countP_cons, List.countP_cons, hx]
      simp
    | succ j =>
      rw [List.getD_cons_succ] at hne
      rw [List.length_cons, Nat.succ_lt_succ_iff] at hi
      rw [List.set_cons_succ, List.countP_cons, List.countP_cons, ih j hi hne]
      omega

theorem countP_set_exit : ∀ (l : List (Option Bool)) (i : Nat),
    l.getD i none = some true →
    (l.set i (some false)).countP (fun s => s == some true) + 1 =
      l.countP (fun s => s == some true) := by
  intro l
  induction l with
  | nil =>
    intro i hi
    simp at hi
  | cons x xs ih =>
    intro i hi
    cases i with
    | zero =>
      rw [List.getD_cons_zero] at hi
      subst hi
      rw [List.set_cons_zero, List.countP_cons, List.countP_cons]
      simp
    | succ j =>
      rw [List.getD_cons_succ] at hi
      rw [List.set_cons_succ, List.countP_cons, List.countP_cons, ← ih j hi]
      omega

theorem wStep_inv (st : WatcherSt) (e : WEvent) (h : wInv st) : wInv (wStep st e) := by
  unfold wInv at h ⊢
  cases e with
  | runCall i =>
    simp only [wStep]
    by_cases hi : i < st.slots.length
    · rw [if_pos hi]
      by_cases hs : st.slots.getD i none = none ∨ st.slots.getD i none = some false
      · rw [if_pos hs]
        have hne : st.slots.getD i none ≠ some true := by
          rcases hs with hs | hs <;> rw [hs] <;> simp
        show st.aliveCount + 1 = (st.slots.set i (some true)).countP fun s => s == some true
        rw [countP_set_spawn st.slots i hi hne, h]
      · rw [if_neg hs]
        exact h
    · rw [if_neg hi]
      exact h
  | watcherExit i =>
    simp only [wStep]
    by_cases hs : st.slots.getD i none = some true
    · rw [if_pos hs]
      have hx := countP_set_exit st.slots i hs
      show st.aliveCount - 1 = (st.slots.set i (some false)).countP fun s => s == some true
      omega
    · rw [if_neg hs]
      exact h

theorem foldl_wInv (evs : List WEvent) (st : WatcherSt) (h : wInv st) :
    wInv (evs.foldl wStep st) := by
  induction evs generalizing st with
  | nil => exact h
  | cons e evs ih => exact ih _ (wStep_inv st e h)

theorem wInit_inv (n : Nat) : wInv (wInit n) := by
  unfold wInv wInit
  induction n with
  | zero => rfl
  | succ m ih =>
    rw [List.replicate_succ, List.countP_cons]
    simpa using ih

/-- C5 counterexample: two sequential `run` calls on two fresh instances of
the same class each spawn a watcher — `self.WATCHER = Thread(...)` creates
an instance attribute, the class attribute stays `None` — leaving two
watcher threads alive at once for the class, with no concurrency involved. -/
theorem c5_two_instances_two_watchers :
    ([WEvent.runCall 0, WEvent.runCall 1].foldl wStep (wInit 2)).aliveCount = 2 ∧
    ([WEvent.runCall 0, WEvent.runCall 1].foldl wStep (wInit 2)).slots =
      [some true, some true] :=
  ⟨rfl, rfl⟩

/-- C5 amended: the lazy-spawn check of `AppExecuter.run` guards the
per-instance `WATCHER` slot (the assignment shadows the class attribute, so
the class-level `WATCHER` stays `None`); a new watcher is spawned exactly
when the calling instance's slot holds no live thread, and at most one
watcher thread is alive per instance — the alive count equals the number of
instances holding a live thread and is bounded by the instance count — but
not per class, as distinct instances can each hold a live watcher at once.
The run embedding's `spawnStep` makes the same decision on one slot. -/
theorem c5_per_instance_watcher :
    (∀ (n : Nat) (evs : List WEvent),
      (evs.foldl wStep (wInit n)).aliveCount =
        (evs.foldl wStep (wInit n)).slots.countP fun s => s == some true) ∧
    (∀ (n : Nat) (evs : List WEvent),
      (evs.foldl wStep (wInit n)).aliveCount ≤
        (evs.foldl wStep (wInit n)).slots.length) ∧
    (∀ (st : WatcherSt) (i : Nat),
      wStep st (.runCall i) =
        if i < st.slots.length ∧ ¬st.slots.getD i none = some true then
          { slots := st.slots.set i (some true), aliveCount := st.aliveCount + 1 }
        else st) ∧
    (∀ s : Option Bool, (spawnStep s).2 = !(s == some true) ∧ (spawnStep s).1 = some true) := by
  refine ⟨?_, ?_, ?_, ?_⟩
  · intro n evs
    exact foldl_wInv evs (wInit n) (wInit_inv n)
  · intro n evs
    rw [foldl_wInv evs (wInit n) (wInit_inv n)]
    exact List.countP_le_length _
  · intro st i
    simp only [wStep]
    by_cases hi : i < st.slots.length
    · rw [if_pos hi]
      by_cases hs : st.slots.getD i none = none ∨ st.slots.getD i none = some false
      · rw [if_pos hs]
        have hne : ¬st.slots.getD i none = some true := by
          rcases hs with h | h <;> rw [h] <;> simp
        rw [if_pos ⟨hi, hne⟩]
      · rw [if_neg hs]
        have heq : st.slots.getD i none = some true := by
          rcases hx : st.slots.getD i none with _ | b
          · exact absurd (Or.inl hx) hs
          · cases b
            · exact absurd (Or.inr hx) hs
            · rfl
        rw [if_neg (fun hc => hc.2 heq)]
    · rw [if_neg hi, if_neg (fun hc => hi hc.1)]
  · intro s
    rcases s with _ | b
    · exact ⟨rfl, rfl⟩
    · cases b <;> exact ⟨rfl, rfl⟩

/-! ### C2: counterexample on the base class, amended claim on the Maya class -/

/-- A search path on which nothing resolves and an empty file system. -/
def env0 : Env := ⟨fun _ => none, fun k => "tmp" ++ toString k⟩

/-- An empty initial world. -/
def w0 : World := ⟨fun _ => none, 0, none, []⟩

/-- C2 counterexample: on the base `AppExecuter`, when the executable is not
found on the search path (`shutil.which` returns `None`), `run` does not
return `None` — it raises `TypeError` (from `os.path.isfile(None)` inside
`validate`), so a failure of an executer's run is surfaced by an exception. -/
theorem c2_base_run_raises :
    AppExecuter.run env0 w0 { name_exe := some "missing.exe", path_exe := none } [] [] =
      .error PyErr.typeError := rfl

/-! ### C6: Popen's error path refutes the unconditional start -/

/-- A pre-resolved instance whose `path_exe` is already a truthy string. -/
def selfResolved : ExecSt := { name_exe := some "x.exe", path_exe := some "C:/x.exe" }

/-- C6 counterexample: validation passes on a preset truthy `path_exe`
without checking it, yet with that path not an existing file the process is
not started — `Popen` raises `FileNotFoundError` out of `run`. -/
theorem c6_validated_launch_raises :
    validateWith (getExeOf (AppExecuter.get_exe_path env0)) w0.fs selfResolved =
      .ok (true, selfResolved) ∧
    AppExecuter.run env0 w0 selfResolved ["a"] [("k", "v")] =
      .error PyErr.fileNotFoundError :=
  ⟨rfl, rfl⟩

/-- C6 amended: when validation passes and the validated executable path is
an existing file, `AppExecuter.run` hands the OS process launcher the
positional arguments in order followed by `-key value` for each keyword
argument in order, starts the process with the resolved executable path, and
queues the process for the watcher; a preset truthy `path_exe` is not
checked by validation and, if it is not an existing file, Popen raises
`FileNotFoundError` instead of starting a process. -/
theorem c6_subprocess_args (env : Env) (w : World) (self : ExecSt)
    (args : List String) (kwargs : List (String × String)) (self2 : ExecSt)
    (q : String)
    (h : validateWith (getExeOf (AppExecuter.get_exe_path env)) w.fs self =
      .ok (true, self2))
    (hq : self2.path_exe = some q)
    (hfile : w.fs.isfile q = true) :
    ∃ p : Proc,
      AppExecuter.run env w self args kwargs =
        .ok (some p, self2,
          { w with watcher := (spawnStep w.watcher).1, queue := w.queue ++ [p] }) ∧
      p.args = args ++ (kwargs.flatMap fun kv => ["-" ++ kv.1, kv.2]) ∧
      p.executable = self2.path_exe := by
  refine ⟨{ args := buildArgs args kwargs, executable := self2.path_exe,
            path_errors := none }, ?_, buildArgs_eq args kwargs, rfl⟩
  unfold AppExecuter.run AppExecuter.runWith popen
  rw [h]
  simp [hq, hfile]

/-- A world whose file system holds the preset executable of `selfResolved`. -/
def wExe : World := ⟨fun n => if n = "C:/x.exe" then some "" else none, 0, none, []⟩

/-- Witness for C6 at a concrete resolved instance whose executable exists,
with one positional and one keyword argument. -/
theorem c6_subprocess_args_witness :
    ∃ p : Proc,
      AppExecuter.run env0 wExe selfResolved ["a"] [("k", "v")] =
        .ok (some p, selfResolved,
          { wExe with watcher := (spawnStep wExe.watcher).1, queue := wExe.queue ++ [p] }) ∧
      p.args = ["a"] ++ ([("k", "v")].flatMap fun kv => ["-" ++ kv.1, kv.2]) ∧
      p.executable = selfResolved.path_exe :=
  c6_subprocess_args env0 wExe selfResolved ["a"] [("k", "v")] selfResolved "C:/x.exe"
    rfl rfl rfl

/-! ### C10 -/

/-- C10: after one call to the inherited `validate` on a `MayabatchExecuter`
instance, `self.path_exe` is a truthy string (the resolved or fallback path),
and every further `validate` call returns `True` at once without touching the
path again — even when the first call returned `False`. -/
theorem c10_validate_caches_path (env : Env) (fs : FSys) (ne pe : Option String)
    (b : Bool) (self2 : ExecSt)
    (h : MayabatchExecuter.validate env fs (MayabatchExecuter.init ne pe) =
      .ok (b, self2)) :
    pyTruthy self2.path_exe = true ∧
    MayabatchExecuter.validate env fs self2 = .ok (true, self2) := by
  unfold MayabatchExecuter.validate validateWith at h
  by_cases hp : pyTruthy (MayabatchExecuter.init ne pe).path_exe = true
  · rw [if_pos hp] at h
    obtain ⟨hb, hself⟩ : true = b ∧ MayabatchExecuter.init ne pe = self2 := by
      simpa using h
    subst hself
    exact ⟨hp, by unfold MayabatchExecuter.validate validateWith; rw [if_pos hp]⟩
  · rw [if_neg hp] at h
    obtain ⟨nm, hnm⟩ := mayaInit_name ne pe
    rw [hnm] at h
    obtain ⟨q, hq, hqe⟩ := pyTruthy_some_exists (maya_get_truthy env nm)
    simp only [getExeOf, hq, isfilePy] at h
    have hself : self2 = { name_exe := some nm, path_exe := some q } := by
      by_cases hb : FSys.isfile fs q = true <;> simp [hb] at h <;> exact h.2.symm
    have hps : pyTruthy self2.path_exe = true := by
      rw [hself]
      simp [pyTruthy, hqe]
    refine ⟨hps, ?_⟩
    unfold MayabatchExecuter.validate validateWith
    rw [if_pos hps]

/-- Witness for C10: with nothing on the search path and an empty file
system the first `validate` returns `False` yet caches the fallback path,
and the second returns `True`. -/
theorem c10_validate_caches_path_witness :
    pyTruthy (ExecSt.mk (some "mayabatch.exe") (some mayaFallbackPath)).path_exe = true ∧
    MayabatchExecuter.validate env0 (w0.fs)
        (ExecSt.mk (some "mayabatch.exe") (some mayaFallbackPath)) =
      .ok (true, ExecSt.mk (some "mayabatch.exe") (some mayaFallbackPath)) :=
  c10_validate_caches_path env0 w0.fs none none false
    (ExecSt.mk (some "mayabatch.exe") (some mayaFallbackPath)) rfl

/-! ### More helper lemmas: file system pointwise facts and run-path lemmas -/

theorem FSys.write_same (fs : FSys) (n c : String) : fs.write n c n = some c := by
  simp [FSys.write]

theorem FSys.write_diff (fs : FSys) {m n : String} (c : String) (h : m ≠ n) :
    fs.write n c m = fs m := by
  simp [FSys.write, h]

theorem FSys.remove_same (fs : FSys) (n : String) : fs.remove n n = none := by
  simp [FSys.remove]

theorem FSys.remove_diff (fs : FSys) {m n : String} (h : m ≠ n) :
    fs.remove n m = fs m := by
  simp [FSys.remove, h]

theorem runWith_valid_false {getExe} {w : World} {self self2 : ExecSt}
    (args : List String) (kwargs : List (String × String))
    (h : validateWith getExe w.fs self = .ok (false, self2)) :
    AppExecuter.runWith getExe w self args kwargs = .ok (none, self2, w) := by
  unfold AppExecuter.runWith
  rw [h]
  rfl

theorem escapeBS_no_bs {s : String} (h : '\\' ∉ s.data) : escapeBS s = s := by
  obtain ⟨l⟩ := s
  apply String.ext
  show l.flatMap (fun c => if c = '\\' then ['\\', '\\'] else [c]) = l
  induction l with
  | nil => rfl
  | cons c cs ih =>
    simp only [List.mem_cons, not_or] at h
    rw [List.flatMap_cons, ih h.2]
    rw [if_neg (fun hc => h.1 hc.symm)]
    rfl

theorem runWith_valid_true {getExe} {w : World} {self self2 : ExecSt} {q : String}
    (args : List String) (kwargs : List (String × String))
    (h : validateWith getExe w.fs self = .ok (true, self2))
    (hq : self2.path_exe = some q)
    (hfile : w.fs.isfile q = true) :
    AppExecuter.runWith getExe w self args kwargs =
      .ok (some { args := buildArgs args kwargs, executable := self2.path_exe,
                  path_errors := none }, self2,
           { w with watcher := (spawnStep w.watcher).1,
                    queue := w.queue ++ [{ args := buildArgs args kwargs,
                                           executable := self2.path_exe,
                                           path_errors := none }] }) := by
  unfold AppExecuter.runWith popen
  rw [h]
  simp [hq, hfile]

theorem runWith_popen_fail {getExe} {w : World} {self self2 : ExecSt} {q : String}
    (args : List String) (kwargs : List (String × String))
    (h : validateWith getExe w.fs self = .ok (true, self2))
    (hq : self2.path_exe = some q)
    (hfile : w.fs.isfile q = false) :
    AppExecuter.runWith getExe w self args kwargs = .error .fileNotFoundError := by
  unfold AppExecuter.runWith popen
  rw [h]
  simp [hq, hfile]

theorem validate_true_some {getExe : Option String → Except PyErr (Option String)}
    {fs : FSys} {self self2 : ExecSt}
    (h : validateWith getExe fs self = .ok (true, self2)) :
    ∃ q, self2.path_exe = some q := by
  unfold validateWith at h
  by_cases hp : pyTruthy self.path_exe = true
  · rw [if_pos hp] at h
    obtain ⟨s, hs, -⟩ := pyTruthy_some_exists hp
    obtain ⟨-, h2⟩ : true = true ∧ self = self2 := by simpa using h
    exact ⟨s, by rw [← h2, hs]⟩
  · rw [if_neg hp] at h
    rcases hge : getExe self.name_exe with e | p
    · rw [hge] at h
      simp at h
    · rw [hge] at h
      rcases p with _ | q
      · simp [isfilePy] at h
      · simp only [isfilePy] at h
        cases hb : FSys.isfile fs q <;> rw [hb] at h <;> simp at h
        subst h
        exact ⟨q, rfl⟩

theorem maya_validate_ok (env : Env) (fs : FSys) (self : ExecSt)
    (h : self.name_exe.isSome = true) :
    ∃ b self2, validateWith (getExeOf (MayabatchExecuter.get_exe_path env)) fs self =
      .ok (b, self2) := by
  unfold validateWith
  by_cases hp : pyTruthy self.path_exe = true
  · exact ⟨true, self, by rw [if_pos hp]⟩
  · rw [if_neg hp]
    obtain ⟨nm, hnm⟩ := Option.isSome_iff_exists.mp h
    rw [hnm]
    obtain ⟨q, hq, -⟩ := pyTruthy_some_exists (maya_get_truthy env nm)
    simp only [getExeOf, hq, isfilePy]
    refine ⟨fs.isfile q, { self with path_exe := some q }, ?_⟩
    cases hb : FSys.isfile fs q <;> simp [hb, hnm]

theorem maya_validate_falsy (env : Env) (fs : FSys) (self : ExecSt)
    (hname : self.name_exe.isSome = true) (hp : pyTruthy self.path_exe = false) :
    ∃ q, validateWith (getExeOf (MayabatchExecuter.get_exe_path env)) fs self =
      .ok (fs.isfile q, { self with path_exe := some q }) := by
  unfold validateWith
  rw [hp]
  obtain ⟨nm, hnm⟩ := Option.isSome_iff_exists.mp hname
  rw [hnm]
  obtain ⟨q, hq, -⟩ := pyTruthy_some_exists (maya_get_truthy env nm)
  refine ⟨q, ?_⟩
  simp only [getExeOf, hq, isfilePy]
  cases hb : FSys.isfile fs q <;> simp [hb]

theorem maya_run_early_file {env : Env} {w : World} {self : ExecSt}
    {pmf cmd : Option String} {func : Option (String × String)}
    (args : List String) (kwargs : List (String × String))
    (h : mayaEarlyFileFail w.fs pmf = true) :
    MayabatchExecuter.run env w self pmf cmd func args kwargs = .ok (none, self, w) := by
  unfold MayabatchExecuter.run
  rw [h]
  rfl

theorem maya_run_nothing {env : Env} {w : World} {self : ExecSt}
    {pmf cmd : Option String} {func : Option (String × String)}
    (args : List String) (kwargs : List (String × String))
    (h : (!pyTruthy cmd && !func.isSome) = true) :
    MayabatchExecuter.run env w self pmf cmd func args kwargs = .ok (none, self, w) := by
  unfold MayabatchExecuter.run
  cases h1 : mayaEarlyFileFail w.fs pmf
  · rw [h]
    rfl
  · rfl

/-- Abbreviation for the file system `MayabatchExecuter.run` stages before
launching: both temporary files written under the current temp-name counter. -/
def mayaStagedOf (env : Env) (w : World) (cmd : Option String)
    (func : Option (String × String)) : FSys :=
  mayaStagedFs w.fs (env.tempName w.tmp) (env.tempName (w.tmp + 1))
    (scriptWrap (mayaUserCmd cmd func) (env.tempName w.tmp) (env.tempName (w.tmp + 1)))

/-- Abbreviation for the annotated process handle a successful
`MayabatchExecuter.run` returns. -/
def mayaProcOf (env : Env) (w : World) (self2 : ExecSt) (pmf : Option String)
    (args : List String) (kwargs : List (String × String)) : Proc :=
  { args := buildArgs (args ++ kwargs.map Prod.fst)
      (mayaSuperKwargs pmf (mayaPythonExpr (escapeBS (env.tempName (w.tmp + 1))))),
    executable := self2.path_exe,
    path_errors := some (env.tempName w.tmp) }

theorem maya_run_success (env : Env) (w : World) (self self2 : ExecSt)
    (pmf cmd : Option String) (func : Option (String × String))
    (args : List String) (kwargs : List (String × String)) (q : String)
    (h1 : mayaEarlyFileFail w.fs pmf = false)
    (h2 : (!pyTruthy cmd && !func.isSome) = false)
    (hv : validateWith (getExeOf (MayabatchExecuter.get_exe_path env))
        (mayaStagedOf env w cmd func) self = .ok (true, self2))
    (hq : self2.path_exe = some q)
    (hfile : (mayaStagedOf env w cmd func).isfile q = true) :
    MayabatchExecuter.run env w self pmf cmd func args kwargs =
      .ok (some (mayaProcOf env w self2 pmf args kwargs), self2,
        { fs := mayaStagedOf env w cmd func, tmp := w.tmp + 2,
          watcher := (spawnStep w.watcher).1,
          queue := w.queue ++ [mayaProcOf env w self2 pmf args kwargs] }) := by
  unfold MayabatchExecuter.run
  rw [h1, h2]
  simp only [Bool.false_eq_true, if_false]
  rw [runWith_valid_true (args ++ kwargs.map Prod.fst)
    (mayaSuperKwargs pmf (mayaPythonExpr (escapeBS (env.tempName (w.tmp + 1))))) hv hq hfile]
  simp only [mayaProcOf]
  rw [List.dropLast_concat]
  rfl

theorem maya_run_popen_fail (env : Env) (w : World) (self self2 : ExecSt)
    (pmf cmd : Option String) (func : Option (String × String))
    (args : List String) (kwargs : List (String × String)) (q : String)
    (h1 : mayaEarlyFileFail w.fs pmf = false)
    (h2 : (!pyTruthy cmd && !func.isSome) = false)
    (hv : validateWith (getExeOf (MayabatchExecuter.get_exe_path env))
        (mayaStagedOf env w cmd func) self = .ok (true, self2))
    (hq : self2.path_exe = some q)
    (hfile : (mayaStagedOf env w cmd func).isfile q = false) :
    MayabatchExecuter.run env w self pmf cmd func args kwargs =
      .error PyErr.fileNotFoundError := by
  unfold MayabatchExecuter.run
  rw [h1, h2]
  simp only [Bool.false_eq_true, if_false]
  rw [runWith_popen_fail (args ++ kwargs.map Prod.fst)
    (mayaSuperKwargs pmf (mayaPythonExpr (escapeBS (env.tempName (w.tmp + 1))))) hv hq hfile]

theorem maya_run_launch_fail (env : Env) (w : World) (self self2 : ExecSt)
    (pmf cmd : Option String) (func : Option (String × String))
    (args : List String) (kwargs : List (String × String))
    (h1 : mayaEarlyFileFail w.fs pmf = false)
    (h2 : (!pyTruthy cmd && !func.isSome) = false)
    (hney : env.tempName w.tmp ≠ env.tempName (w.tmp + 1))
    (hbs : '\\' ∉ (env.tempName (w.tmp + 1)).data)
    (hv : validateWith (getExeOf (MayabatchExecuter.get_exe_path env))
        (mayaStagedOf env w cmd func) self = .ok (false, self2)) :
    MayabatchExecuter.run env w self pmf cmd func args kwargs =
      .ok (none, self2,
        { fs := ((mayaStagedOf env w cmd func).remove
            (env.tempName (w.tmp + 1))).remove (env.tempName w.tmp),
          tmp := w.tmp + 2, watcher := w.watcher, queue := w.queue }) := by
  unfold MayabatchExecuter.run
  rw [h1, h2]
  simp only [Bool.false_eq_true, if_false]
  rw [runWith_valid_false (args ++ kwargs.map Prod.fst)
    (mayaSuperKwargs pmf (mayaPythonExpr (escapeBS (env.tempName (w.tmp + 1))))) hv]
  rw [escapeBS_no_bs hbs]
  rw [show mayaStagedFs w.fs (env.tempName w.tmp) (env.tempName (w.tmp + 1))
      (scriptWrap (mayaUserCmd cmd func) (env.tempName w.tmp) (env.tempName (w.tmp + 1))) =
      mayaStagedOf env w cmd func from rfl]
  have hfile1 : (mayaStagedOf env w cmd func).isfile (env.tempName (w.tmp + 1)) = true := by
    unfold mayaStagedOf mayaStagedFs FSys.isfile
    rw [FSys.write_same]
    rfl
  have hfile2 : ((mayaStagedOf env w cmd func).remove
      (env.tempName (w.tmp + 1))).isfile (env.tempName w.tmp) = true := by
    unfold FSys.isfile
    rw [FSys.remove_diff _ hney]
    unfold mayaStagedOf mayaStagedFs
    rw [FSys.write_diff _ _ hney, FSys.write_diff _ _ hney, FSys.write_same]
    rfl
  simp only [hfile1, hfile2, if_true]

theorem notify_after_script (fs : FSys) (p : Proc) (E Y : String)
    (hney : E ≠ Y) (hpe : p.path_errors = some E) (hE : fs E = some "")
    (raises : Bool) (tb : String) :
    ∃ fs3 content,
      MayabatchExecuter.notify (execGeneratedScript fs raises tb E Y) p =
        .ok (fs3, content) ∧ fs3 E = none ∧ fs3 Y = none := by
  have hcontent : execGeneratedScript fs raises tb E Y E =
      some (if raises then tb else "") := by
    unfold execGeneratedScript
    rw [FSys.remove_diff _ hney]
    cases raises
    · simpa using hE
    · simp [FSys.write_same]
  refine ⟨(execGeneratedScript fs raises tb E Y).remove E, if raises then tb else "",
    ?_, FSys.remove_same _ _, ?_⟩
  · unfold MayabatchExecuter.notify
    rw [hpe]
    simp only [hcontent]
  · rw [FSys.remove_diff _ (Ne.symm hney)]
    unfold execGeneratedScript
    exact FSys.remove_same _ _

/-- C2 counterexample forces an amendment; the amended claim: on a
`MayabatchExecuter` instance built without a preset executable path
(`path_exe` falsy) `run` never raises, and each failure mode — nothing to
run, a maya file argument that is not an existing file, and a failed
validation (resolved executable path not an existing file) — is surfaced by
returning `None`; with a preset truthy `path_exe` validation skips the file
check and `Popen` can raise `FileNotFoundError`, and on the base
`AppExecuter` an unresolved executable name raises `TypeError`, as the
counterexample shows. -/
theorem c2_maya_failures_return_none (env : Env) (w : World) (ne pe pmf cmd : Option String)
    (func : Option (String × String)) (args : List String)
    (kwargs : List (String × String)) :
    (pyTruthy pe = false →
      ∃ r, MayabatchExecuter.run env w (MayabatchExecuter.init ne pe) pmf cmd func
        args kwargs = .ok r) ∧
    (mayaEarlyFileFail w.fs pmf = true →
      MayabatchExecuter.run env w (MayabatchExecuter.init ne pe) pmf cmd func args kwargs =
        .ok (none, MayabatchExecuter.init ne pe, w)) ∧
    ((!pyTruthy cmd && !func.isSome) = true →
      MayabatchExecuter.run env w (MayabatchExecuter.init ne pe) pmf cmd func args kwargs =
        .ok (none, MayabatchExecuter.init ne pe, w)) ∧
    (∀ self2 : ExecSt,
      mayaEarlyFileFail w.fs pmf = false →
      (!pyTruthy cmd && !func.isSome) = false →
      validateWith (getExeOf (MayabatchExecuter.get_exe_path env))
          (mayaStagedOf env w cmd func) (MayabatchExecuter.init ne pe) =
        .ok (false, self2) →
      ∃ w2, MayabatchExecuter.run env w (MayabatchExecuter.init ne pe) pmf cmd func
          args kwargs = .ok (none, self2, w2)) := by
  have hname : (MayabatchExecuter.init ne pe).name_exe.isSome = true := by
    obtain ⟨nm, hnm⟩ := mayaInit_name ne pe
    simp [hnm]
  have hfail : ∀ self2 : ExecSt, mayaEarlyFileFail w.fs pmf = false →
      (!pyTruthy cmd && !func.isSome) = false →
      validateWith (getExeOf (MayabatchExecuter.get_exe_path env))
          (mayaStagedOf env w cmd func) (MayabatchExecuter.init ne pe) =
        .ok (false, self2) →
      ∃ w2, MayabatchExecuter.run env w (MayabatchExecuter.init ne pe) pmf cmd func
          args kwargs = .ok (none, self2, w2) := by
    intro self2 h1 h2 hv
    unfold MayabatchExecuter.run
    rw [h1, h2]
    simp only [Bool.false_eq_true, if_false]
    rw [runWith_valid_false (args ++ kwargs.map Prod.fst)
      (mayaSuperKwargs pmf (mayaPythonExpr (escapeBS (env.tempName (w.tmp + 1))))) hv]
    exact ⟨_, rfl⟩
  refine ⟨?_, fun h => maya_run_early_file args kwargs h,
          fun h => maya_run_nothing args kwargs h, hfail⟩
  intro hp
  have hpe : pyTruthy (MayabatchExecuter.init ne pe).path_exe = false := hp
  cases h1 : mayaEarlyFileFail w.fs pmf
  · cases h2 : (!pyTruthy cmd && !func.isSome)
    · obtain ⟨q, hv⟩ := maya_validate_falsy env (mayaStagedOf env w cmd func) _ hname hpe
      cases hb : (mayaStagedOf env w cmd func).isfile q
      · rw [hb] at hv
        obtain ⟨w2, hw2⟩ := hfail _ h1 h2 hv
        exact ⟨_, hw2⟩
      · rw [hb] at hv
        exact ⟨_, maya_run_success env w _ _ pmf cmd func args kwargs q h1 h2 hv rfl hb⟩
    · exact ⟨_, maya_run_nothing args kwargs h2⟩
  · exact ⟨_, maya_run_early_file args kwargs h1⟩

/-- C1 counterexample forces an amendment; the amended claim: whenever
`MayabatchExecuter.run` gets past its early returns — creating its two
temporary files under fresh names — and the script temp name contains no
backslash (so the rebinding `path_py = path_py.replace('\\', '\\\\')`
before the cleanup is the identity), then either the launch validation fails
(`run` returns `None`) and the file system is exactly as before the call, or
the launch succeeds and the error-capture file (created empty) and the
script file (holding the wrapper script) are still present, the handle
records the error-capture path, and running the generated script (which
removes the script file) followed by the notification callback (which
removes the error-capture file) leaves neither temporary file behind; with
a backslash in the script temp name the failure cleanup checks and removes
the escaped name instead, leaving the script file behind, as the
counterexample shows. -/
theorem c1_temp_file_cleanup (env : Env) (w : World) (self : ExecSt)
    (pmf cmd : Option String) (func : Option (String × String))
    (args : List String) (kwargs : List (String × String))
    (hname : self.name_exe.isSome = true)
    (h1 : mayaEarlyFileFail w.fs pmf = false)
    (h2 : (!pyTruthy cmd && !func.isSome) = false)
    (he : w.fs (env.tempName w.tmp) = none)
    (hy : w.fs (env.tempName (w.tmp + 1)) = none)
    (hney : env.tempName w.tmp ≠ env.tempName (w.tmp + 1))
    (hbs : '\\' ∉ (env.tempName (w.tmp + 1)).data) :
    (∀ self2 w2, MayabatchExecuter.run env w self pmf cmd func args kwargs =
        .ok (none, self2, w2) → ∀ n, w2.fs n = w.fs n) ∧
    (∀ p self2 w2, MayabatchExecuter.run env w self pmf cmd func args kwargs =
        .ok (some p, self2, w2) →
      p.path_errors = some (env.tempName w.tmp) ∧
      w2.fs (env.tempName w.tmp) = some "" ∧
      w2.fs (env.tempName (w.tmp + 1)) = some (scriptWrap (mayaUserCmd cmd func)
        (env.tempName w.tmp) (env.tempName (w.tmp + 1))) ∧
      (∀ (userRaises : Bool) (tb : String),
        ∃ fs3 content,
          MayabatchExecuter.notify
            (execGeneratedScript w2.fs userRaises tb (env.tempName w.tmp)
              (env.tempName (w.tmp + 1))) p = .ok (fs3, content) ∧
          fs3 (env.tempName w.tmp) = none ∧
          fs3 (env.tempName (w.tmp + 1)) = none)) := by
  have hsE : mayaStagedOf env w cmd func (env.tempName w.tmp) = some "" := by
    unfold mayaStagedOf mayaStagedFs
    rw [FSys.write_diff _ _ hney, FSys.write_diff _ _ hney, FSys.write_same]
  have hsY : mayaStagedOf env w cmd func (env.tempName (w.tmp + 1)) =
      some (scriptWrap (mayaUserCmd cmd func) (env.tempName w.tmp)
        (env.tempName (w.tmp + 1))) := by
    unfold mayaStagedOf mayaStagedFs
    rw [FSys.write_same]
  obtain ⟨b, self2, hv⟩ := maya_validate_ok env (mayaStagedOf env w cmd func) self hname
  cases b
  · have hrun := maya_run_launch_fail env w self self2 pmf cmd func args kwargs h1 h2 hney
      hbs hv
    constructor
    · intro s3 w2 heq n
      rw [hrun] at heq
      obtain ⟨-, -, hw⟩ : (none : Option Proc) = none ∧ self2 = s3 ∧
          ({ fs := ((mayaStagedOf env w cmd func).remove
              (env.tempName (w.tmp + 1))).remove (env.tempName w.tmp),
             tmp := w.tmp + 2, watcher := w.watcher, queue := w.queue } : World) = w2 := by
        simpa using heq
      rw [← hw]
      show (((mayaStagedOf env w cmd func).remove
        (env.tempName (w.tmp + 1))).remove (env.tempName w.tmp)) n = w.fs n
      by_cases hnE : n = env.tempName w.tmp
      · rw [hnE, FSys.remove_same, he]
      · rw [FSys.remove_diff _ hnE]
        by_cases hnY : n = env.tempName (w.tmp + 1)
        · rw [hnY, FSys.remove_same, hy]
        · rw [FSys.remove_diff _ hnY]
          unfold mayaStagedOf mayaStagedFs
          rw [FSys.write_diff _ _ hnY, FSys.write_diff _ _ hnY, FSys.write_diff _ _ hnE]
    · intro p s3 w2 heq
      rw [hrun] at heq
      simp at heq
  · obtain ⟨q, hq⟩ := validate_true_some hv
    cases hfq : (mayaStagedOf env w cmd func).isfile q
    · have hrun := maya_run_popen_fail env w self self2 pmf cmd func args kwargs q
        h1 h2 hv hq hfq
      constructor
      · intro s3 w2 heq
        rw [hrun] at heq
        simp at heq
      · intro p s3 w2 heq
        rw [hrun] at heq
        simp at heq
    · have hrun := maya_run_success env w self self2 pmf cmd func args kwargs q
        h1 h2 hv hq hfq
      constructor
      · intro s3 w2 heq
        rw [hrun] at heq
        simp at heq
      · intro p s3 w2 heq
        rw [hrun] at heq
        obtain ⟨hp, -, hw⟩ : mayaProcOf env w self2 pmf args kwargs = p ∧ self2 = s3 ∧
            ({ fs := mayaStagedOf env w cmd func, tmp := w.tmp + 2,
               watcher := (spawnStep w.watcher).1,
               queue := w.queue ++ [mayaProcOf env w self2 pmf args kwargs] } : World) = w2 := by
          simpa using heq
        have hpe : p.path_errors = some (env.tempName w.tmp) := by
          rw [← hp]
          rfl
        have hfs : w2.fs = mayaStagedOf env w cmd func := by
          rw [← hw]
        refine ⟨hpe, by rw [hfs]; exact hsE, by rw [hfs]; exact hsY, ?_⟩
        intro raises tb
        rw [hfs]
        exact notify_after_script _ p _ _ hney hpe hsE raises tb

/-- Witness for C1 at a concrete environment: fresh temp names `tmp0` and
`tmp1`, an empty file system, a default-constructed executer and the command
`print(1)`. -/
theorem c1_temp_file_cleanup_witness :
    (∀ self2 w2, MayabatchExecuter.run env0 w0 (MayabatchExecuter.init none none)
        none (some "print(1)") none [] [] = .ok (none, self2, w2) →
      ∀ n, w2.fs n = w0.fs n) ∧
    (∀ p self2 w2, MayabatchExecuter.run env0 w0 (MayabatchExecuter.init none none)
        none (some "print(1)") none [] [] = .ok (some p, self2, w2) →
      p.path_errors = some (env0.tempName w0.tmp) ∧
      w2.fs (env0.tempName w0.tmp) = some "" ∧
      w2.fs (env0.tempName (w0.tmp + 1)) =
        some (scriptWrap (mayaUserCmd (some "print(1)") none)
          (env0.tempName w0.tmp) (env0.tempName (w0.tmp + 1))) ∧
      (∀ (userRaises : Bool) (tb : String),
        ∃ fs3 content,
          MayabatchExecuter.notify
            (execGeneratedScript w2.fs userRaises tb (env0.tempName w0.tmp)
              (env0.tempName (w0.tmp + 1))) p = .ok (fs3, content) ∧
          fs3 (env0.tempName w0.tmp) = none ∧
          fs3 (env0.tempName (w0.tmp + 1)) = none)) :=
  c1_temp_file_cleanup env0 w0 (MayabatchExecuter.init none none) none
    (some "print(1)") none [] [] rfl rfl rfl rfl rfl (by decide) (by decide)

/-- An environment whose script temp name contains a backslash: the failure
cleanup then checks and removes the escaped name, not the file written. -/
def envBS : Env := ⟨fun _ => none, fun k => if k = 0 then "errtmp" else "p\\q"⟩

/-- C1 counterexample: with script temp name `p\q` (one backslash) and an
unresolvable executable, the launch fails and `run` returns `None`, but the
script file `p\q` is left behind — the cleanup looked for the rebound
escaped name `p\\q`. -/
theorem c1_escaped_cleanup_leak :
    ∃ self2 w2,
      MayabatchExecuter.run envBS w0 (MayabatchExecuter.init none none)
          none (some "print(1)") none [] [] = .ok (none, self2, w2) ∧
      w2.fs "p\\q" =
        some (scriptWrap (mayaUserCmd (some "print(1)") none) "errtmp" "p\\q") :=
  ⟨_, _, rfl, rfl⟩

theorem scriptWrap_explicit (c E Y : String) :
    scriptWrap c E Y =
      "import utd_menu\ntry:\n    " ++ c ++
      "\nexcept Exception as e:\n    import traceback\n    with open(r\x27" ++ E ++
      "\x27, \x27w\x27) as file:\n        file.write(traceback.format_exc())\nfinally:\n    import os\n    os.remove(r\x27" ++
      Y ++ "\x27)" := by
  apply String.ext
  simp only [scriptWrap, pyJoinNL, String.data_append, List.append_assoc]
  norm_num

/-- C3 counterexample forces an amendment; the amended claim: when the
launch succeeds — validation passes and the validated executable path is an
existing file, so `Popen` does not raise — the script file holds exactly the
generated wrapper — the user command under `try`, an `except` branch writing
`traceback.format_exc()` to the error-capture file, a `finally` branch
removing the script file — and the `-command` flag handed to the vendor
executable is exactly `python("exec(open(r'<escaped script path>', 'r').read())")`,
where the escaping doubles backslashes and is the identity on paths without
backslashes; a validated instance whose executable path is not an existing
file makes `run` raise instead of launching, as the counterexample shows. -/
theorem c3_script_and_invocation (env : Env) (w : World) (self self2 : ExecSt)
    (pmf cmd : Option String) (func : Option (String × String))
    (args : List String) (kwargs : List (String × String)) (q : String)
    (h1 : mayaEarlyFileFail w.fs pmf = false)
    (h2 : (!pyTruthy cmd && !func.isSome) = false)
    (hv : validateWith (getExeOf (MayabatchExecuter.get_exe_path env))
        (mayaStagedOf env w cmd func) self = .ok (true, self2))
    (hq : self2.path_exe = some q)
    (hfile : (mayaStagedOf env w cmd func).isfile q = true) :
    ∃ p w2, MayabatchExecuter.run env w self pmf cmd func args kwargs =
        .ok (some p, self2, w2) ∧
      w2.fs (env.tempName (w.tmp + 1)) = some
        ("import utd_menu\ntry:\n    " ++ mayaUserCmd cmd func ++
         "\nexcept Exception as e:\n    import traceback\n    with open(r\x27" ++
         env.tempName w.tmp ++
         "\x27, \x27w\x27) as file:\n        file.write(traceback.format_exc())\nfinally:\n    import os\n    os.remove(r\x27" ++
         env.tempName (w.tmp + 1) ++ "\x27)") ∧
      p.args = (args ++ kwargs.map Prod.fst) ++
        ((mayaSuperKwargs pmf (mayaPythonExpr (escapeBS (env.tempName (w.tmp + 1))))).flatMap
          fun kv => ["-" ++ kv.1, kv.2]) ∧
      mayaPythonExpr (escapeBS (env.tempName (w.tmp + 1))) =
        "python(\x22exec(open(r\x27" ++ escapeBS (env.tempName (w.tmp + 1)) ++
          "\x27, \x27r\x27).read())\x22)" ∧
      ('\\' ∉ (env.tempName (w.tmp + 1)).data →
        escapeBS (env.tempName (w.tmp + 1)) = env.tempName (w.tmp + 1)) := by
  have hrun := maya_run_success env w self self2 pmf cmd func args kwargs q h1 h2 hv hq hfile
  refine ⟨mayaProcOf env w self2 pmf args kwargs, _, hrun, ?_, ?_, rfl,
    fun h => escapeBS_no_bs h⟩
  · show mayaStagedOf env w cmd func (env.tempName (w.tmp + 1)) = _
    unfold mayaStagedOf mayaStagedFs
    rw [FSys.write_same, ← scriptWrap_explicit]
  · show buildArgs (args ++ kwargs.map Prod.fst)
        (mayaSuperKwargs pmf (mayaPythonExpr (escapeBS (env.tempName (w.tmp + 1))))) = _
    exact buildArgs_eq _ _

/-- A `MayabatchExecuter` instance whose executable path is already set. -/
def selfMaya : ExecSt := { name_exe := some "mayabatch.exe", path_exe := some "C:/mb.exe" }

/-- C3 counterexample: `selfMaya` passes validation unchanged (its preset
path is truthy), but the path is not an existing file in the empty world, so
`run` raises `FileNotFoundError` from `Popen` instead of launching. -/
theorem c3_validated_launch_raises :
    validateWith (getExeOf (MayabatchExecuter.get_exe_path env0))
        (mayaStagedOf env0 w0 (some "print(1)") none) selfMaya = .ok (true, selfMaya) ∧
    MayabatchExecuter.run env0 w0 selfMaya none (some "print(1)") none [] [] =
      .error PyErr.fileNotFoundError := ⟨rfl, rfl⟩

/-- A world whose file system holds the preset executable `C:/mb.exe`. -/
def wMB : World := ⟨fun n => if n = "C:/mb.exe" then some "" else none, 0, none, []⟩

/-- Witness for C3: concrete fresh temp names, a resolved instance whose
executable file exists and the command `print(1)`. -/
theorem c3_script_and_invocation_witness :
    ∃ p w2, MayabatchExecuter.run env0 wMB selfMaya none (some "print(1)") none [] [] =
        .ok (some p, selfMaya, w2) ∧
      w2.fs (env0.tempName (wMB.tmp + 1)) = some
        ("import utd_menu\ntry:\n    " ++ mayaUserCmd (some "print(1)") none ++
         "\nexcept Exception as e:\n    import traceback\n    with open(r\x27" ++
         env0.tempName wMB.tmp ++
         "\x27, \x27w\x27) as file:\n        file.write(traceback.format_exc())\nfinally:\n    import os\n    os.remove(r\x27" ++
         env0.tempName (wMB.tmp + 1) ++ "\x27)") ∧
      p.args = ([] ++ ([] : List (String × String)).map Prod.fst) ++
        ((mayaSuperKwargs none
          (mayaPythonExpr (escapeBS (env0.tempName (wMB.tmp + 1))))).flatMap
          fun kv => ["-" ++ kv.1, kv.2]) ∧
      mayaPythonExpr (escapeBS (env0.tempName (wMB.tmp + 1))) =
        "python(\x22exec(open(r\x27" ++ escapeBS (env0.tempName (wMB.tmp + 1)) ++
          "\x27, \x27r\x27).read())\x22)" ∧
      ('\\' ∉ (env0.tempName (wMB.tmp + 1)).data →
        escapeBS (env0.tempName (wMB.tmp + 1)) = env0.tempName (wMB.tmp + 1)) :=
  c3_script_and_invocation env0 wMB selfMaya selfMaya none (some "print(1)") none [] []
    "C:/mb.exe" rfl rfl rfl rfl rfl

theorem termIter_ge (queue : List WProc) (i : Nat) : i ≤ termIter queue i := by
  induction queue with
  | nil => exact le_refl i
  | cons p q ih => exact le_trans ih (le_max_right _ _)

theorem termIter_exit_le (queue : List WProc) (i : Nat) :
    ∀ p ∈ queue, p.exitAt ≤ termIter queue i := by
  induction queue with
  | nil => intro p hp; exact absurd hp (List.not_mem_nil p)
  | cons q qs ih =>
    intro p hp
    rcases List.mem_cons.mp hp with h | h
    · rw [h]; exact le_max_left _ _
    · exact le_trans (ih p h) (le_max_right _ _)

theorem termIter_min (queue : List WProc) (i j : Nat)
    (h : ∀ p ∈ queue, p.exitAt ≤ j) (hij : i ≤ j) : termIter queue i ≤ j := by
  induction queue with
  | nil => exact hij
  | cons q qs ih =>
    refine max_le (h q (List.mem_cons_self q qs)) (ih ?_)
    intro p hp
    exact h p (List.mem_cons_of_mem q hp)

theorem termIter_all_le (queue : List WProc) (i : Nat)
    (h : ∀ p ∈ queue, p.exitAt ≤ i) : termIter queue i = i :=
  le_antisymm (termIter_min queue i i h (le_refl i)) (termIter_ge queue i)

theorem termIter_running (queue : List WProc) (i : Nat)
    (h : queue.filter (fun p => !pollExited i p) ≠ []) :
    termIter (queue.filter (fun p => !pollExited i p)) (i + 1) = termIter queue i := by
  obtain ⟨p0, hp0⟩ := List.exists_mem_of_ne_nil _ h
  have hp0q := List.mem_of_mem_filter hp0
  have hp0r : i + 1 ≤ p0.exitAt := by
    have := List.of_mem_filter hp0
    simpa [pollExited, Nat.lt_iff_add_one_le] using this
  apply le_antisymm
  · refine termIter_min _ _ _ ?_ ?_
    · intro p hp
      exact termIter_exit_le queue i p (List.mem_of_mem_filter hp)
    · exact le_trans hp0r (termIter_exit_le queue i p0 hp0q)
  · refine termIter_min _ _ _ ?_ (le_trans (Nat.le_succ i) (termIter_ge _ _))
    intro p hp
    by_cases hex : pollExited i p = true
    · have : p.exitAt ≤ i := by simpa [pollExited] using hex
      exact le_trans this (le_trans (Nat.le_succ i) (termIter_ge _ _))
    · refine termIter_exit_le _ _ p ?_
      rw [List.mem_filter]
      exact ⟨hp, by simpa using hex⟩

theorem watchRun_spec : ∀ (fuel : Nat) (queue : List WProc) (i : Nat)
    (acc : List (WProc × Nat)) (slept : Nat),
    termIter queue i < i + fuel →
    ∃ notifs, watchRun fuel queue i acc slept =
        some (acc ++ notifs, termIter queue i, slept + (termIter queue i + 1 - i)) ∧
      notifs.Perm (queue.map fun p => (p, max i p.exitAt)) := by
  intro fuel
  induction fuel with
  | zero =>
    intro queue i acc slept hf
    exact absurd hf (by have := termIter_ge queue i; omega)
  | succ fuel ih =>
    intro queue i acc slept hf
    rw [watchRun]
    by_cases hrun : (queue.filter fun p => !pollExited i p).isEmpty = true
    · have hall : ∀ p ∈ queue, p.exitAt ≤ i := by
        intro p hp
        have := List.isEmpty_iff.mp hrun
        by_contra hgt
        have hmem : p ∈ queue.filter (fun p => !pollExited i p) := by
          rw [List.mem_filter]
          exact ⟨hp, by simp [pollExited]; omega⟩
        rw [this] at hmem
        exact absurd hmem (List.not_mem_nil p)
      have hT : termIter queue i = i := termIter_all_le queue i hall
      have hex : queue.filter (fun p => pollExited i p) = queue := by
        rw [List.filter_eq_self]
        intro p hp
        simpa [pollExited] using hall p hp
      refine ⟨(queue.filter (fun p => pollExited i p)).map fun p => (p, i), ?_, ?_⟩
      · simp only [hrun, if_true, hT]
        have hs : slept + (i + 1 - i) = slept + 1 := by omega
        rw [hs]
      · rw [hex]
        refine List.Perm.of_eq (List.map_congr_left ?_)
        intro p hp
        have := hall p hp
        simp [Nat.max_eq_left this]
    · simp only [hrun, if_false]
      have hne : queue.filter (fun p => !pollExited i p) ≠ [] := by
        intro hnil
        rw [hnil] at hrun
        exact hrun rfl
      have hTr := termIter_running queue i hne
      have hf2 : termIter (queue.filter fun p => !pollExited i p) (i + 1) < (i + 1) + fuel := by
        rw [hTr]
        omega
      obtain ⟨notifs, heq, hperm⟩ := ih _ (i + 1) (acc ++ (queue.filter
        (fun p => pollExited i p)).map fun p => (p, i)) (slept + 1) hf2
      refine ⟨((queue.filter (fun p => pollExited i p)).map fun p => (p, i)) ++ notifs,
        ?_, ?_⟩
      · rw [heq, hTr]
        have hi1 : i + 1 ≤ termIter queue i := by
          obtain ⟨p0, hp0⟩ := List.exists_mem_of_ne_nil _ hne
          have : i + 1 ≤ p0.exitAt := by
            have := List.of_mem_filter hp0
            simpa [pollExited, Nat.lt_iff_add_one_le] using this
          exact le_trans this (termIter_exit_le queue i p0 (List.mem_of_mem_filter hp0))
        have hs : slept + 1 + (termIter queue i + 1 - (i + 1)) =
            slept + (termIter queue i + 1 - i) := by omega
        rw [List.append_assoc, hs]
        rfl
      · have h1 : ((queue.filter (fun p => pollExited i p)).map fun p => (p, i)) =
            (queue.filter (fun p => pollExited i p)).map fun p => (p, max i p.exitAt) := by
          refine List.map_congr_left ?_
          intro p hp
          have : p.exitAt ≤ i := by simpa [pollExited] using List.of_mem_filter hp
          simp [Nat.max_eq_left this]
        have h2 : (queue.filter (fun p => !pollExited i p)).map
              (fun p => (p, max (i + 1) p.exitAt)) =
            (queue.filter (fun p => !pollExited i p)).map fun p => (p, max i p.exitAt) := by
          refine List.map_congr_left ?_
          intro p hp
          have : i + 1 ≤ p.exitAt := by
            have := List.of_mem_filter hp
            simpa [pollExited, Nat.lt_iff_add_one_le] using this
          rw [sup_eq_right.mpr this, sup_eq_right.mpr (le_trans (Nat.le_succ i) this)]
        rw [h1]
        refine List.Perm.trans ?_
          (List.Perm.map (fun p => (p, i ⊔ p.exitAt))
            (List.filter_append_perm (fun p => pollExited i p) queue))
        rw [List.map_append, ← h2]
        exact List.Perm.append_left _ hperm

/-- C4: started on any queue snapshot with enough fuel, the watcher loop
terminates exactly at the first iteration at which no polled process is
still running (`termIter`, with its lower-bound and minimality facts spelled
out); it notifies every queued process exactly once, at the iteration at
which it is first observed to have exited; it sleeps once per iteration for
the fixed `watchSleepSeconds = 0.5` seconds; and on an empty queue it
self-terminates after a single iteration with no notification. -/
theorem c4_watcher_loop (queue : List WProc) (fuel : Nat)
    (hfuel : termIter queue 1 < 1 + fuel) :
    ∃ notifs, watchRun fuel queue 1 [] 0 =
        some (notifs, termIter queue 1, termIter queue 1) ∧
      notifs.Perm (queue.map fun p => (p, max 1 p.exitAt)) ∧
      (∀ p ∈ queue, p.exitAt ≤ termIter queue 1) ∧
      (∀ j, 1 ≤ j → (∀ p ∈ queue, p.exitAt ≤ j) → termIter queue 1 ≤ j) ∧
      (queue = [] → watchRun fuel queue 1 [] 0 = some ([], 1, 1)) ∧
      watchSleepSeconds = 1 / 2 := by
  obtain ⟨notifs, heq, hperm⟩ := watchRun_spec fuel queue 1 [] 0 hfuel
  have hs : 0 + (termIter queue 1 + 1 - 1) = termIter queue 1 := by omega
  refine ⟨notifs, ?_, hperm, termIter_exit_le queue 1,
    fun j hj hall => termIter_min _ _ _ hall hj, ?_, ?_⟩
  · rw [heq, List.nil_append, hs]
  · intro hq
    subst hq
    have hnil : notifs = [] := by
      rw [List.map_nil] at hperm
      exact hperm.eq_nil
    rw [heq, hnil]
    rfl
  · norm_num [watchSleepSeconds]

/-- Witness for C4: one process already exited and one exiting at the third
iteration; the loop stops at iteration 3 after three sleeps. -/
theorem c4_watcher_loop_witness :
    ∃ notifs, watchRun 5 [WProc.mk 0, WProc.mk 3] 1 [] 0 =
        some (notifs, termIter [WProc.mk 0, WProc.mk 3] 1,
          termIter [WProc.mk 0, WProc.mk 3] 1) ∧
      notifs.Perm ([WProc.mk 0, WProc.mk 3].map fun p => (p, max 1 p.exitAt)) ∧
      (∀ p ∈ [WProc.mk 0, WProc.mk 3], p.exitAt ≤ termIter [WProc.mk 0, WProc.mk 3] 1) ∧
      (∀ j, 1 ≤ j → (∀ p ∈ [WProc.mk 0, WProc.mk 3], p.exitAt ≤ j) →
        termIter [WProc.mk 0, WProc.mk 3] 1 ≤ j) ∧
      ([WProc.mk 0, WProc.mk 3] = ([] : List WProc) →
        watchRun 5 [WProc.mk 0, WProc.mk 3] 1 [] 0 = some ([], 1, 1)) ∧
      watchSleepSeconds = 1 / 2 :=
  c4_watcher_loop [WProc.mk 0, WProc.mk 3] 5 (by decide)

theorem splitNl_ne_nil (cs : List Char) : splitNl cs ≠ [] := by
  cases cs with
  | nil => simp [splitNl]
  | cons c cs =>
    rw [splitNl]
    rcases h : splitNl cs with _ | ⟨l, ls⟩
    · simp
    · by_cases hc : c = '\n' <;> simp [hc]

theorem splitNl_cons_eq (c : Char) (cs : List Char) {l : List Char}
    {ls : List (List Char)} (h : splitNl cs = l :: ls) :
    splitNl (c :: cs) = if c = '\n' then [] :: l :: ls else (c :: l) :: ls := by
  rw [splitNl, h]

theorem splitNl_append_nl (xs ys : List Char) :
    splitNl (xs ++ '\n' :: ys) = splitNl xs ++ splitNl ys := by
  induction xs with
  | nil =>
    rcases h : splitNl ys with _ | ⟨l, ls⟩
    · exact absurd h (splitNl_ne_nil ys)
    · rw [List.nil_append, splitNl_cons_eq '\n' ys h, if_pos rfl]
      rfl
  | cons x xs ih =>
    rcases h : splitNl xs with _ | ⟨m, ms⟩
    · exact absurd h (splitNl_ne_nil xs)
    · have h2 : splitNl (xs ++ '\n' :: ys) = m :: (ms ++ splitNl ys) := by
        rw [ih, h]
        rfl
      rw [List.cons_append, splitNl_cons_eq x _ h2, splitNl_cons_eq x xs h]
      by_cases hx : x = '\n' <;> simp [hx]

theorem splitNl_no_nl {cs : List Char} (h : '\n' ∉ cs) : splitNl cs = [cs] := by
  induction cs with
  | nil => rfl
  | cons c cs ih =>
    simp only [List.mem_cons, not_or] at h
    have hc : ¬c = '\n' := fun hc => h.1 hc.symm
    rw [splitNl_cons_eq c cs (ih h.2), if_neg hc]

theorem splitNl_last_nl {xs : List Char} (h : '\n' ∉ xs) :
    splitNl (xs ++ ['\n']) = [xs, []] := by
  rw [splitNl_append_nl, splitNl_no_nl h]
  rfl

theorem splitNl_joinNl : ∀ (L : List (List Char)), L ≠ [] →
    splitNl (joinNlChars L) = L.flatMap splitNl := by
  intro L
  induction L with
  | nil => intro h; exact absurd rfl h
  | cons l ls ih =>
    intro _h
    cases ls with
    | nil => simp [joinNlChars]
    | cons l2 ls2 =>
      rw [show joinNlChars (l :: l2 :: ls2) = l ++ '\n' :: joinNlChars (l2 :: ls2) from rfl]
      rw [splitNl_append_nl, ih (by simp)]
      simp [List.flatMap_cons]

theorem splitNl_flushed {l : List Char} (h : '\n' ∉ l.dropLast) :
    splitNl l = [l] ∨ splitNl l = [l.dropLast, []] := by
  rcases heq : l.reverse with _ | ⟨c, rest⟩
  · left
    have : l = [] := by simpa using congrArg List.reverse heq
    rw [this]
    rfl
  · have hl : l = rest.reverse ++ [c] := by
      have := congrArg List.reverse heq
      simpa using this
    have hdl : l.dropLast = rest.reverse := by
      rw [hl, List.dropLast_concat]
    by_cases hc : c = '\n'
    · right
      rw [hl, hc, List.dropLast_concat]
      exact splitNl_last_nl (by rw [← hdl]; exact h)
    · left
      refine splitNl_no_nl ?_
      rw [hl]
      intro hmem
      rcases List.mem_append.mp hmem with hm | hm
      · exact h (by rw [hdl]; exact hm)
      · simp only [List.mem_singleton] at hm
        exact hc hm.symm

def wrapInv (width : Nat) (hdr ind : List Char) (st : List Char × List (List Char)) : Prop :=
  '\n' ∉ st.1 ∧ st.1.length < width ∧
  ((st.2 = [] ∧ ∃ m, st.1 = hdr ++ m) ∨ (st.2 ≠ [] ∧ ∃ m, st.1 = ind ++ m)) ∧
  (∀ l ∈ st.2, l.length ≤ width ∧ '\n' ∉ l.dropLast) ∧
  (match st.2 with
   | [] => True
   | l0 :: rest =>
     (∃ m, l0 = hdr ++ m ∧ m ≠ []) ∧ ∀ l ∈ rest, ∃ m, l = ind ++ m ∧ m ≠ [])

theorem wrapInv_step (width : Nat) (hdr ind : List Char)
    (hni : '\n' ∉ ind) (hwi : ind.length < width)
    (st : List Char × List (List Char)) (c : Char)
    (h : wrapInv width hdr ind st) :
    wrapInv width hdr ind (logWrapStep width ind st c) := by
  obtain ⟨h1, h2, h3, h4, h5⟩ := h
  unfold logWrapStep wrapInv
  by_cases hc : (c = '\n' ∨ width ≤ (st.1 ++ [c]).length)
  · rw [if_pos hc]
    refine ⟨hni, hwi, Or.inr ⟨by simp, ⟨[], by simp⟩⟩, ?_, ?_⟩
    · intro l hl
      rcases List.mem_append.mp hl with hl | hl
      · exact h4 l hl
      · simp only [List.mem_singleton] at hl
        subst hl
        refine ⟨?_, ?_⟩
        · simp only [List.length_append, List.length_singleton]
          omega
        · rw [List.dropLast_concat]
          exact h1
    · rcases h3 with ⟨hnil, m, hm⟩ | ⟨hne, m, hm⟩
      · rw [hnil]
        simp only [List.nil_append]
        exact ⟨⟨m ++ [c], by rw [hm, List.append_assoc], by simp⟩,
          fun l hl => absurd hl (List.not_mem_nil l)⟩
      · rcases hl : st.2 with _ | ⟨l0, rest⟩
        · exact absurd hl hne
        · rw [hl] at h5
          refine ⟨h5.1, ?_⟩
          intro l hlr
          rcases List.mem_append.mp hlr with hh | hh
          · exact h5.2 l hh
          · simp only [List.mem_singleton] at hh
            subst hh
            exact ⟨m ++ [c], by rw [hm, List.append_assoc], by simp⟩
  · rw [if_neg hc]
    push_neg at hc
    obtain ⟨hcn, hlen⟩ := hc
    refine ⟨?_, hlen, ?_, h4, ?_⟩
    · intro hmem
      rcases List.mem_append.mp hmem with hm | hm
      · exact h1 hm
      · simp only [List.mem_singleton] at hm
        exact hcn hm.symm
    · rcases h3 with ⟨hnil, m, hm⟩ | ⟨hne, m, hm⟩
      · exact Or.inl ⟨hnil, m ++ [c], by rw [hm, List.append_assoc]⟩
      · exact Or.inr ⟨hne, m ++ [c], by rw [hm, List.append_assoc]⟩
    · exact h5

theorem wrapInv_foldl (width : Nat) (hdr ind : List Char)
    (hni : '\n' ∉ ind) (hwi : ind.length < width) :
    ∀ (msg : List Char) (st : List Char × List (List Char)),
    wrapInv width hdr ind st →
    wrapInv width hdr ind (msg.foldl (logWrapStep width ind) st) := by
  intro msg
  induction msg with
  | nil => intro st h; exact h
  | cons c cs ih =>
    intro st h
    exact ih _ (wrapInv_step width hdr ind hni hwi st c h)

def stripAll (L : Nat) (st : List Char × List (List Char)) : List Char :=
  st.2.flatMap (List.drop L) ++ st.1.drop L

theorem stripAll_foldl (width L : Nat) (ind : List Char) (hind : ind.length = L) :
    ∀ (msg : List Char) (st : List Char × List (List Char)), L ≤ st.1.length →
    stripAll L (msg.foldl (logWrapStep width ind) st) = stripAll L st ++ msg ∧
    L ≤ (msg.foldl (logWrapStep width ind) st).1.length := by
  intro msg
  induction msg with
  | nil => intro st h; exact ⟨by simp, h⟩
  | cons c cs ih =>
    intro st h
    have hstep : stripAll L (logWrapStep width ind st c) = stripAll L st ++ [c] ∧
        L ≤ (logWrapStep width ind st c).1.length := by
      unfold logWrapStep
      by_cases hc : (c = '\n' ∨ width ≤ (st.1 ++ [c]).length)
      · rw [if_pos hc]
        constructor
        · unfold stripAll
          have hdi : List.drop L ind = [] := by
            rw [← hind]
            exact List.drop_length ind
          simp only [List.flatMap_append, List.flatMap_cons, List.flatMap_nil]
          rw [List.drop_append_of_le_length h, hdi]
          simp [List.append_assoc]
        · rw [hind]
      · rw [if_neg hc]
        constructor
        · unfold stripAll
          simp only []
          rw [List.drop_append_of_le_length h]
          simp [List.append_assoc]
        · simp only [List.length_append, List.length_singleton]
          omega
    obtain ⟨ha, hb⟩ := ih (logWrapStep width ind st c) hstep.2
    refine ⟨?_, hb⟩
    rw [show (c :: cs).foldl (logWrapStep width ind) st =
      cs.foldl (logWrapStep width ind) (logWrapStep width ind st c) from rfl]
    rw [ha, hstep.1, List.append_assoc]
    rfl

theorem foldl_no_nl (width : Nat) (ind : List Char) (hni : '\n' ∉ ind) :
    ∀ (msg : List Char) (st : List Char × List (List Char)), '\n' ∉ msg →
    (∀ l ∈ st.2, '\n' ∉ l) → '\n' ∉ st.1 →
    (∀ l ∈ (msg.foldl (logWrapStep width ind) st).2, '\n' ∉ l) ∧
    '\n' ∉ (msg.foldl (logWrapStep width ind) st).1 := by
  intro msg
  induction msg with
  | nil => intro st _ h2 h3; exact ⟨h2, h3⟩
  | cons c cs ih =>
    intro st hmsg h2 h3
    simp only [List.mem_cons, not_or] at hmsg
    refine ih (logWrapStep width ind st c) hmsg.2 ?_ ?_
    · unfold logWrapStep
      by_cases hc : (c = '\n' ∨ width ≤ (st.1 ++ [c]).length)
      · rw [if_pos hc]
        intro l hl
        rcases List.mem_append.mp hl with hh | hh
        · exact h2 l hh
        · simp only [List.mem_singleton] at hh
          subst hh
          intro hmem
          rcases List.mem_append.mp hmem with hm | hm
          · exact h3 hm
          · simp only [List.mem_singleton] at hm
            exact hmsg.1 hm
      · rw [if_neg hc]
        exact h2
    · unfold logWrapStep
      by_cases hc : (c = '\n' ∨ width ≤ (st.1 ++ [c]).length)
      · rw [if_pos hc]
        exact hni
      · rw [if_neg hc]
        intro hmem
        rcases List.mem_append.mp hmem with hm | hm
        · exact h3 hm
        · simp only [List.mem_singleton] at hm
          exact hmsg.1 hm

theorem flatMap_singleton_eq {α : Type} (f : α → List α) :
    ∀ (L : List α), (∀ l ∈ L, f l = [l]) → L.flatMap f = L := by
  intro L
  induction L with
  | nil => intro _; rfl
  | cons x xs ih =>
    intro h
    rw [List.flatMap_cons, h x (List.mem_cons_self x xs),
      ih (fun l hl => h l (List.mem_cons_of_mem x hl))]
    rfl

theorem logHeader_no_nl (time_str : String) (level : Level) (h : '\n' ∉ time_str.data) :
    '\n' ∉ (logHeaderStr time_str level).data := by
  unfold logHeaderStr
  simp only [String.data_append, List.mem_append, not_or]
  refine ⟨⟨⟨h, ?_⟩, ?_⟩, ?_⟩
  · decide
  · cases level <;> decide
  · decide

/-- C8 counterexample forces an amendment; the amended claim: provided the
width exceeds the length of the `HH:MM:SS  [LEVEL]  ` header, the console
logger prints the message after the header with every printed line at most
`width` long, every line after the first either empty (an explicit newline
in the message also emits an empty line) or indented by header-many spaces,
and, for messages without explicit newlines, stripping the header and the
indents gives back exactly the message. For widths not exceeding the header
length, printed lines exceed the width, as the counterexample shows. -/
theorem c8_log_wrap_amended (message : List Char) (time_str : String) (level : Level) (width : Nat)
    (htime : '\n' ∉ time_str.data)
    (hw : (logHeaderStr time_str level).data.length < width) :
    (∀ l ∈ splitNl (logConsoleChars message time_str level width), l.length ≤ width) ∧
    (∃ r rest, splitNl (logConsoleChars message time_str level width) =
        ((logHeaderStr time_str level).data ++ r) :: rest ∧
      ∀ l ∈ rest, l = [] ∨ ∃ m,
        l = List.replicate (logHeaderStr time_str level).data.length ' ' ++ m) ∧
    ('\n' ∉ message →
      (splitNl (logConsoleChars message time_str level width)).flatMap
        (List.drop (logHeaderStr time_str level).data.length) = message) := by
  have hnh : '\n' ∉ (logHeaderStr time_str level).data := logHeader_no_nl time_str level htime
  set hdr := (logHeaderStr time_str level).data with hhdr
  set ind := List.replicate hdr.length ' ' with hind
  have hni : '\n' ∉ ind := by
    intro hmem
    exact absurd (List.eq_of_mem_replicate hmem) (by decide)
  have hil : ind.length = hdr.length := List.length_replicate hdr.length ' '
  have hwi : ind.length < width := by
    rw [hil]
    exact hw
  set stF := message.foldl (logWrapStep width ind) (hdr, []) with hstF
  have hinv : wrapInv width hdr ind stF :=
    wrapInv_foldl width hdr ind hni hwi message (hdr, [])
      ⟨hnh, hw, Or.inl ⟨rfl, [], by simp⟩, by simp, trivial⟩
  obtain ⟨hC1, hC2, hC3, hC4, hC5⟩ := hinv
  have hout : logConsoleChars message time_str level width =
      joinNlChars (stF.2 ++ [stF.1]) := rfl
  have hpieces : splitNl (logConsoleChars message time_str level width) =
      (stF.2 ++ [stF.1]).flatMap splitNl := by
    rw [hout]
    exact splitNl_joinNl _ (by simp)
  refine ⟨?_, ?_, ?_⟩
  · -- every printed line fits the width
    intro l hl
    rw [hpieces] at hl
    obtain ⟨l0, hl0, hmem⟩ := List.mem_flatMap.mp hl
    rcases List.mem_append.mp hl0 with hh | hh
    · obtain ⟨hlew, hdrop⟩ := hC4 l0 hh
      rcases splitNl_flushed hdrop with hsp | hsp
      · rw [hsp] at hmem
        simp only [List.mem_singleton] at hmem
        subst hmem
        exact hlew
      · rw [hsp] at hmem
        simp only [List.mem_cons, List.mem_singleton, List.not_mem_nil, or_false] at hmem
        rcases hmem with hmem | hmem
        · subst hmem
          have := List.length_dropLast l0
          omega
        · subst hmem
          simp
    · simp only [List.mem_singleton] at hh
      subst hh
      rw [splitNl_no_nl hC1] at hmem
      simp only [List.mem_singleton] at hmem
      subst hmem
      omega
  · -- first line begins with the header, later lines with the indent
    have hdecomp : ∃ a b, splitNl (logConsoleChars message time_str level width) = a :: b ∧
        (∃ r, a = hdr ++ r) ∧ (∀ l ∈ b, l = [] ∨ ∃ m, l = ind ++ m) := by
      rcases h2l : stF.2 with _ | ⟨l0, rest⟩
      · have hm : ∃ m, stF.1 = hdr ++ m := by
          rcases hC3 with ⟨-, hm⟩ | ⟨hne, -⟩
          · exact hm
          · exact absurd h2l hne
        refine ⟨stF.1, [], ?_, hm, by simp⟩
        rw [hpieces, h2l]
        simp only [List.nil_append, List.flatMap_cons, List.flatMap_nil]
        rw [splitNl_no_nl hC1]
        rfl
      · rw [h2l] at hC5
        obtain ⟨⟨m0, hm0, hm0ne⟩, hrest⟩ := hC5
        have hIndTail : ∀ l ∈ rest.flatMap splitNl ++ splitNl stF.1,
            l = [] ∨ ∃ m, l = ind ++ m := by
          intro l hl
          rcases List.mem_append.mp hl with hh | hh
          · obtain ⟨l1, hl1, hmem⟩ := List.mem_flatMap.mp hh
            obtain ⟨m1, hm1, hm1ne⟩ := hrest l1 hl1
            have hfl : '\n' ∉ l1.dropLast :=
              (hC4 l1 (by rw [h2l]; exact List.mem_cons_of_mem l0 hl1)).2
            rcases splitNl_flushed hfl with hsp | hsp
            · rw [hsp] at hmem
              simp only [List.mem_singleton] at hmem
              subst hmem
              exact Or.inr ⟨m1, hm1⟩
            · rw [hsp] at hmem
              simp only [List.mem_cons, List.mem_singleton, List.not_mem_nil,
                or_false] at hmem
              rcases hmem with hmem | hmem
              · subst hmem
                refine Or.inr ⟨m1.dropLast, ?_⟩
                rw [hm1]
                exact List.dropLast_append_of_ne_nil ind hm1ne
              · exact Or.inl hmem
          · have hst1 : ∃ m, stF.1 = ind ++ m := by
              rcases hC3 with ⟨hnil, -⟩ | ⟨-, hm⟩
              · rw [h2l] at hnil
                exact absurd hnil (by simp)
              · exact hm
            rw [splitNl_no_nl hC1] at hh
            simp only [List.mem_singleton] at hh
            subst hh
            exact Or.inr hst1
        have hfl0 : '\n' ∉ l0.dropLast :=
          (hC4 l0 (by rw [h2l]; exact List.mem_cons_self l0 rest)).2
        have hps : splitNl (logConsoleChars message time_str level width) =
            splitNl l0 ++ (rest.flatMap splitNl ++ splitNl stF.1) := by
          rw [hpieces, h2l]
          simp [List.flatMap_cons, List.flatMap_append]
        rcases splitNl_flushed hfl0 with hsp | hsp
        · refine ⟨l0, rest.flatMap splitNl ++ splitNl stF.1, ?_, ⟨m0, hm0⟩, hIndTail⟩
          rw [hps, hsp]
          rfl
        · refine ⟨l0.dropLast, [] :: (rest.flatMap splitNl ++ splitNl stF.1), ?_, ?_, ?_⟩
          · rw [hps, hsp]
            rfl
          · refine ⟨m0.dropLast, ?_⟩
            rw [hm0]
            exact List.dropLast_append_of_ne_nil hdr hm0ne
          · intro l hl
            rcases List.mem_cons.mp hl with hh | hh
            · exact Or.inl hh
            · exact hIndTail l hh
    obtain ⟨a, b, heq, ⟨r, hr⟩, hb⟩ := hdecomp
    exact ⟨r, b, by rw [heq, hr], hb⟩
  · -- newline-free messages are printed in full
    intro hnlmsg
    have hnlAll := foldl_no_nl width ind hni message (hdr, []) hnlmsg
      (by intro l hl; exact absurd hl (List.not_mem_nil l)) hnh
    have hsingle : ∀ l ∈ stF.2 ++ [stF.1], splitNl l = [l] := by
      intro l hl
      rcases List.mem_append.mp hl with hh | hh
      · exact splitNl_no_nl (hnlAll.1 l hh)
      · simp only [List.mem_singleton] at hh
        subst hh
        exact splitNl_no_nl hnlAll.2
    rw [hpieces, flatMap_singleton_eq splitNl _ hsingle]
    have hstrip := stripAll_foldl width hdr.length ind hil message (hdr, []) (by simp)
    unfold stripAll at hstrip
    have h0 : List.drop hdr.length hdr = [] := List.drop_length hdr
    rw [← hstF] at hstrip
    simp only [List.flatMap_nil, List.nil_append, h0] at hstrip
    rw [List.flatMap_append]
    simp only [List.flatMap_cons, List.flatMap_nil, List.append_nil]
    exact hstrip.1

/-- C8 counterexample: at width 1 (not larger than the header) the logger
prints a line longer than the width. -/
theorem c8_width_counterexample :
    ∃ l ∈ splitNl (logConsoleChars ("ab".data) "12:00:00" Level.INFO 1), 1 < l.length := by
  decide

/-- Witness for C8 at the default-like width 120, level INFO and the message
`hello world`. -/
theorem c8_log_wrap_amended_witness :
    (∀ l ∈ splitNl (logConsoleChars ("hello world".data) "12:00:00" Level.INFO 120),
      l.length ≤ 120) ∧
    (∃ r rest, splitNl (logConsoleChars ("hello world".data) "12:00:00" Level.INFO 120) =
        ((logHeaderStr "12:00:00" Level.INFO).data ++ r) :: rest ∧
      ∀ l ∈ rest, l = [] ∨ ∃ m,
        l = List.replicate (logHeaderStr "12:00:00" Level.INFO).data.length ' ' ++ m) ∧
    ('\n' ∉ ("hello world".data) →
      (splitNl (logConsoleChars ("hello world".data) "12:00:00" Level.INFO 120)).flatMap
        (List.drop (logHeaderStr "12:00:00" Level.INFO).data.length) = "hello world".data) :=
  c8_log_wrap_amended ("hello world".data) "12:00:00" Level.INFO 120 (by decide) (by decide)
